import Mathlib

/-!
# Verification of the findit indexing-and-search core

Shallow embedding of `src/main.py`, class `FileIndexer` (the Python
implementation; the optional accelerated backend is an external
collaborator).  The database is modelled at the level of the SQL
statements the code issues, with standard SQLite semantics:

* the `files` table is a `List Row`, the `mount_points` table a
  `List MountRow`;
* the `LIKE` operator is SQLite's built-in `LIKE`: `%` matches any
  sequence, `_` any single character, and other characters compare
  ASCII-case-insensitively (SQLite's default `LIKE` ignores case for
  ASCII letters whether or not a `COLLATE NOCASE` clause is attached,
  and the code never sets `PRAGMA case_sensitive_like`);
* `ORDER BY is_directory DESC, filename` sorts under the column's
  default BINARY collation (the `files.filename` column declares no
  collation), i.e. codepoint-lexicographic comparison;
* the module-level connection is opened with Python sqlite3's default
  legacy isolation level, under which a DML statement issued on an
  autocommit connection first opens an implicit transaction.  The purge
  `DELETE` of src/main.py line 203 therefore leaves a transaction open,
  and the explicit `BEGIN TRANSACTION` of line 210 raises `cannot start
  a transaction within a transaction`, sending every `index_path` call
  into its `except` handler: `ROLLBACK` (which undoes the uncommitted
  purge) and `return indexed_count`, still 0.  The walk of lines
  212-314 is thus dead code; it is modelled separately as
  `index_path_walk` — there, `BEGIN`/`COMMIT` delimit transactions,
  rows of a committed batch become visible, and a failed commit rolls
  the in-flight batch back — to state what the unreachable body would
  do.

Strings are treated as their character lists; Unicode-only behaviour
(non-ASCII case folding) is outside the model.
-/

set_option maxRecDepth 4000

/-- One row of the `files` table (columns of the `CREATE TABLE files`
statement, minus the synthetic `id`). -/
structure Row where
  path : String
  filename : String
  extension : String
  size : Nat
  modified : Int
  isDirectory : Bool
  filesystemType : String
  indexedAt : Int
deriving DecidableEq

/-- One row of the `mount_points` table. -/
structure MountRow where
  path : String
  filesystemType : String
  lastIndexed : Option Int
  enabled : Bool
deriving DecidableEq

/-- The persistent store: both tables. -/
structure DB where
  files : List Row
  mounts : List MountRow
deriving DecidableEq

/-- ASCII lower-casing of one character, the case folding SQLite's
default `LIKE` applies. -/
def asciiLower (c : Char) : Char :=
  if 'A' ≤ c ∧ c ≤ 'Z' then Char.ofNat (c.toNat + 32) else c

/-- SQLite `LIKE` matching over character lists: `%` matches any
sequence (including the empty one), `_` matches any single character,
and any other pattern character matches a text character equal to it
up to ASCII case. -/
def likeChars : List Char → List Char → Bool
  | [], t => t.isEmpty
  | p :: ps, t =>
    if p == '%' then t.tails.any (fun s => likeChars ps s)
    else
      match t with
      | [] => false
      | c :: ts => (if p == '_' then true else asciiLower p == asciiLower c) && likeChars ps ts

/-- `txt LIKE pat` for SQLite's default (case-insensitive) `LIKE`. -/
def sqlLike (pat txt : String) : Bool :=
  likeChars pat.data txt.data

/-- `DELETE FROM files WHERE path LIKE ?` with parameter `root + "%"`
(src/main.py line 203), executed before a crawl of `root` begins. -/
def purgeUnderRoot (files : List Row) (root : String) : List Row :=
  files.filter (fun r => !sqlLike (root ++ "%") r.path)

/-- `UPDATE mount_points SET last_indexed = ? WHERE path = ?`
(src/main.py lines 301-307). -/
def updateLastIndexed (mounts : List MountRow) (root : String) (now : Int) : List MountRow :=
  mounts.map (fun m => if m.path = root then { m with lastIndexed := some now } else m)

/-- Case-insensitive prefix test over character lists; the semantics
the purge pattern `root + "%"` has when `root` contains no `LIKE`
wildcard. -/
def likePre : List Char → List Char → Bool
  | [], _ => true
  | _ :: _, [] => false
  | p :: ps, c :: ts => (asciiLower p == asciiLower c) && likePre ps ts

/-- A string free of the `LIKE` wildcards `%` and `_`. -/
def noWildcards (s : String) : Bool :=
  s.data.all (fun c => !(c == '%') && !(c == '_'))

/-- Codepoint-lexicographic (BINARY-collation) comparison of character
lists, the collation SQLite uses for `ORDER BY filename` on a column
declared without a collation. -/
def charsLE : List Char → List Char → Bool
  | [], _ => true
  | _ :: _, [] => false
  | a :: as, b :: bs =>
    decide (a.toNat < b.toNat) || (decide (a.toNat = b.toNat) && charsLE as bs)

/-- The row order produced by `ORDER BY is_directory DESC, filename`:
directories (`is_directory = 1`) first, then filename ascending under
BINARY collation. -/
def rowLE (a b : Row) : Prop :=
  if a.isDirectory = b.isDirectory then charsLE a.filename.data b.filename.data = true
  else a.isDirectory = true

instance : DecidableRel rowLE := fun a b => by
  unfold rowLE; infer_instance

/-- The ordered result list of a `SELECT ... ORDER BY is_directory
DESC, filename` over the given rows. -/
def sortRows (l : List Row) : List Row :=
  List.insertionSort rowLE l

/-- The field a query is matched against: the full path when
`search_path` is set, the filename otherwise (src/main.py line 366 and
lines 382-385). -/
def targetField (searchPath : Bool) (r : Row) : String :=
  if searchPath then r.path else r.filename

/-- The `is_directory` condition added in literal mode for
`file_type` (src/main.py lines 387-390). -/
def fileTypePredB (fileType : String) (r : Row) : Bool :=
  if fileType = "files" then !r.isDirectory
  else if fileType = "folders" then r.isDirectory
  else true

/-- The `path LIKE drive_filter + "%"` condition, skipped for a null,
empty or "All Locations" filter (src/main.py lines 343-345, 392-394). -/
def drivePredB (driveFilter : Option String) (r : Row) : Bool :=
  match driveFilter with
  | none => true
  | some d => if d = "" || d = "All Locations" then true else sqlLike (d ++ "%") r.path

/-! ## Regular expressions

Model of the fragment of Python's `re` module exercised by
`FileIndexer.search`: literal characters, `.` (any character except a
newline), alternation `|`, grouping `(...)`, the quantifiers `*` `+`
`?`, and backslash-escapes of non-alphanumeric characters.  Patterns
using constructs outside this fragment (character classes, counted
repeats, anchors, letter escapes such as a digit class) are outside
the model and the parser rejects them; within the fragment the parser
accepts and rejects exactly as `re.compile` does (`(` is an
unterminated group, a leading quantifier has nothing to repeat,
`a**` is a multiple repeat, a trailing backslash is an error).
Matching is Brzozowski-derivative based; `re.IGNORECASE` is modelled
as ASCII case folding. -/

/-- Regular-expression abstract syntax. -/
inductive RE where
  | nul : RE
  | eps : RE
  | chr : Char → RE
  | dot : RE
  | seq : RE → RE → RE
  | alt : RE → RE → RE
  | star : RE → RE
deriving DecidableEq

/-- Does the expression accept the empty string? -/
def nullable : RE → Bool
  | .nul => false
  | .eps => true
  | .chr _ => false
  | .dot => false
  | .seq a b => nullable a && nullable b
  | .alt a b => nullable a || nullable b
  | .star _ => true

/-- Brzozowski derivative with respect to one input character; `ci`
selects ASCII-case-insensitive comparison (`re.IGNORECASE`). -/
def reDeriv (ci : Bool) (re : RE) (c : Char) : RE :=
  match re with
  | .nul => .nul
  | .eps => .nul
  | .chr d => if (if ci then asciiLower d == asciiLower c else d == c) then .eps else .nul
  | .dot => if c == '\n' then .nul else .eps
  | .seq a b =>
      if nullable a then .alt (.seq (reDeriv ci a c) b) (reDeriv ci b c)
      else .seq (reDeriv ci a c) b
  | .alt a b => .alt (reDeriv ci a c) (reDeriv ci b c)
  | .star a => .seq (reDeriv ci a c) (.star a)

/-- Does the expression match some prefix of the text? -/
def matchesPre (ci : Bool) (re : RE) : List Char → Bool
  | [] => nullable re
  | c :: cs => nullable re || matchesPre ci (reDeriv ci re c) cs

/-- Does the expression match starting at some position of the text
(= Python's `pattern.search`)? -/
def searchFrom (ci : Bool) (re : RE) : List Char → Bool
  | [] => nullable re
  | c :: cs => matchesPre ci re (c :: cs) || searchFrom ci re cs

/-- `pattern.search(text)` as a Boolean. -/
def reSearch (ci : Bool) (re : RE) (s : String) : Bool :=
  searchFrom ci re s.data

/-- Characters that are quantifiers. -/
def isQuantChar (c : Char) : Bool :=
  c == '*' || c == '+' || c == '?'

/-- Characters treated as literals by the parser: anything except the
special characters of the modelled fragment and the unmodelled
constructs (classes, counted repeats, anchors), which are rejected. -/
def isPlainChar (c : Char) : Bool :=
  !(c == '*' || c == '+' || c == '?' || c == '|' || c == '(' || c == ')' ||
    c == '[' || c == ']' || c == '{' || c == '}' || c == '^' || c == '$' || c == '\\')

mutual

/-- Parse an alternation (the whole pattern or a group body). -/
def parseAlt : Nat → List Char → Option (RE × List Char)
  | 0, _ => none
  | fuel + 1, cs =>
    match parseSeq fuel cs with
    | none => none
    | some (r, rest) =>
      match rest with
      | '|' :: rest2 =>
        match parseAlt fuel rest2 with
        | none => none
        | some (r2, rest3) => some (.alt r r2, rest3)
      | _ => some (r, rest)

/-- Parse a (possibly empty) concatenation of quantified atoms; a
quantifier with no preceding atom is an error (`nothing to repeat`,
`multiple repeat`). -/
def parseSeq : Nat → List Char → Option (RE × List Char)
  | 0, _ => none
  | fuel + 1, cs =>
    match cs with
    | [] => some (.eps, [])
    | ')' :: _ => some (.eps, cs)
    | '|' :: _ => some (.eps, cs)
    | c :: _ =>
      if isQuantChar c then none
      else
        match parseAtomQ fuel cs with
        | none => none
        | some (r, rest) =>
          match parseSeq fuel rest with
          | none => none
          | some (r2, rest2) => some (.seq r r2, rest2)

/-- Parse one atom followed by at most one quantifier. -/
def parseAtomQ : Nat → List Char → Option (RE × List Char)
  | 0, _ => none
  | fuel + 1, cs =>
    match parseAtom fuel cs with
    | none => none
    | some (r, rest) =>
      match rest with
      | '*' :: rest2 => some (.star r, rest2)
      | '+' :: rest2 => some (.seq r (.star r), rest2)
      | '?' :: rest2 => some (.alt r .eps, rest2)
      | _ => some (r, rest)

/-- Parse one atom: a group, a dot, an escaped punctuation character,
or a literal character. -/
def parseAtom : Nat → List Char → Option (RE × List Char)
  | 0, _ => none
  | fuel + 1, cs =>
    match cs with
    | '(' :: rest =>
      match parseAlt fuel rest with
      | none => none
      | some (r, rest2) =>
        match rest2 with
        | ')' :: rest3 => some (r, rest3)
        | _ => none
    | '.' :: rest => some (.dot, rest)
    | '\\' :: c :: rest => if c.isAlphanum then none else some (.chr c, rest)
    | c :: rest => if isPlainChar c then some (.chr c, rest) else none
    | [] => none

end

/-- `re.compile(query, ...)` restricted to the modelled fragment:
`some` a syntax tree, or `none` when compilation raises `re.error`. -/
def reCompile (q : String) : Option RE :=
  match parseAlt (3 * q.length + 3) q.data with
  | some (r, []) => some r
  | _ => none

/-- `FileIndexer.search` (src/main.py lines 322-413).  Returns the
result rows; the method only ever reads the store.  In literal mode
the `WHERE` clause is a `LIKE` over the target field — SQLite's
`LIKE` is ASCII-case-insensitive with or without the `COLLATE NOCASE`
the code appends, so `match_case` has no effect there — plus the
`is_directory` and drive conditions, followed by `ORDER BY
is_directory DESC, filename LIMIT max_results`.  In regex mode the
code fetches an ordered candidate list capped at `max_results * 5`
(filtered only by the drive condition — `file_type` is not consulted),
compiles the pattern (an exception yields the initial empty result
list via the `except` clause), and collects matching candidates until
`max_results` are found. -/
def search (files : List Row) (query : String) (matchCase regexMode : Bool)
    (maxResults : Nat) (searchPath : Bool) (fileType : String)
    (driveFilter : Option String) : List Row :=
  if query = "" then []
  else if regexMode then
    let candidates := (sortRows (files.filter (drivePredB driveFilter))).take (maxResults * 5)
    match reCompile query with
    | none => []
    | some re =>
      (candidates.filter (fun r => reSearch (!matchCase) re (targetField searchPath r))).take
        maxResults
  else
    (sortRows (files.filter (fun r =>
        sqlLike ("%" ++ query ++ "%") (targetField searchPath r)
          && fileTypePredB fileType r && drivePredB driveFilter r))).take maxResults

/-- `search` as an operation on the whole store, making explicit that
it performs no writes: the store component of the result is the input
store. -/
def searchDB (db : DB) (query : String) (matchCase regexMode : Bool)
    (maxResults : Nat) (searchPath : Bool) (fileType : String)
    (driveFilter : Option String) : List Row × DB :=
  (search db.files query matchCase regexMode maxResults searchPath fileType driveFilter, db)

/-- The row-level match condition of one `search` call, mode by mode:
used to state that a search over rows none of which match returns the
empty list. -/
def searchRowMatch (q : String) (matchCase regexMode searchPath : Bool)
    (fileType : String) (driveFilter : Option String) (r : Row) : Bool :=
  if regexMode then
    match reCompile q with
    | none => false
    | some re => drivePredB driveFilter r && reSearch (!matchCase) re (targetField searchPath r)
  else
    sqlLike ("%" ++ q ++ "%") (targetField searchPath r)
      && fileTypePredB fileType r && drivePredB driveFilter r

/-! ## The crawler

`FileIndexer.index_path` (src/main.py lines 196-320).  Its walk body
(lines 212-314) is unreachable — see `index_path` below — and is
modelled as `index_path_walk`.  The filesystem
is a tree of files and directories; `statOk` records whether
`os.lstat` succeeds on the entry (a failure is skipped silently by
the code).  `os.walk(root)` is modelled by the list of its
`(dirpath, dirnames, filenames)` triples in top-down order, with the
in-place pruning of `dirnames` (hidden directories off the allow-list
are dropped before both the entry loop and the descent).  Directory
listing failures (`os.walk` swallows them via `onerror=None`) are not
modelled.

The stop flag is a monotone `threading.Event`: it is modelled by the
index of the poll from which `is_set()` reads true (`stopAfter`,
`none` = never set, covering also an absent flag), with every read
advancing the poll counter.  A store transaction failure is modelled
by the index of the `COMMIT` that raises (`failAt`); the `except`
handler rolls back the in-flight batch and returns the count so far.
The filesystem type of the root is an input (`fsType`), being the
result of the external detection collaborator, and all calls of
`int(time.time())` during one crawl are modelled by one timestamp
`now`. -/

mutual

/-- A node of the filesystem tree under a crawl root: a file with
name, size, mtime and whether `lstat` succeeds, or a directory with
name, mtime, `lstat` success and its listing. -/
inductive FSTree where
  | file : String → Nat → Int → Bool → FSTree
  | dir : String → Int → Bool → FSList → FSTree

/-- A directory listing (a list of nodes, as a mutual inductive so
that recursion over the tree stays structural). -/
inductive FSList where
  | nil : FSList
  | cons : FSTree → FSList → FSList

end

/-- List-append on directory listings. -/
def fsApp : FSList → FSList → FSList
  | .nil, ys => ys
  | .cons x xs, ys => .cons x (fsApp xs ys)

/-- The name of a node. -/
def nodeName : FSTree → String
  | .file n _ _ _ => n
  | .dir n _ _ _ => n

/-- Is the node a directory? -/
def isDirNode : FSTree → Bool
  | .file _ _ _ _ => false
  | .dir _ _ _ _ => true

/-- The allow-list of conventional dot-directories that are crawled
despite being hidden (src/main.py line 219). -/
def hiddenAllow : List String := [".local", ".config"]

/-- Does `d.startswith(".")` hold, on the character list. -/
def startsWithDot (d : String) : Bool :=
  match d.data with
  | [] => false
  | c :: _ => c == '.'

/-- The pruning filter applied in place to `dirnames`
(src/main.py lines 216-220): keep `d` iff
`not d.startswith(".") or d in [".local", ".config"]`. -/
def keepDirName (d : String) : Bool :=
  !startsWithDot d || hiddenAllow.contains d

/-- `os.path.join(dirpath, name)` for the shapes arising in a walk
(nonempty `dirpath`, relative `name`). -/
def joinPath (d n : String) : String :=
  if d.data.getLast? = some '/' then d ++ n else d ++ "/" ++ n

/-- `os.path.splitext(name)[1].lower()` (ASCII lower-casing): the
extension starts at the last dot, except that a name whose every
character before that dot is itself a dot has no extension. -/
def extOf (name : String) : String :=
  let cs := name.data
  let dots := (List.range cs.length).filter (fun i => cs.getD i ' ' == '.')
  match dots.getLast? with
  | none => ""
  | some i =>
    if (cs.take i).all (fun c => c == '.') then ""
    else String.mk ((cs.drop i).map asciiLower)

/-- One `os.walk` yield: the directory's path, its kept (pruned)
directory children, and its file children. -/
abbrev Triple := String × List FSTree × List FSTree

/-- The directory children of a listing that survive the pruning
(Python's `dirnames[:] = [d for d in dirnames if ...]`), in listing
order. -/
def keptDirChildren : FSList → List FSTree
  | .nil => []
  | .cons t ts =>
    if isDirNode t && keepDirName (nodeName t) then t :: keptDirChildren ts
    else keptDirChildren ts

/-- The file children of a listing, in listing order. -/
def fileChildren : FSList → List FSTree
  | .nil => []
  | .cons t ts => if isDirNode t then fileChildren ts else t :: fileChildren ts

mutual

/-- The `os.walk` triples contributed by one child of a directory at
path `p`: nothing for a file, and for a directory — if it survives
the pruning — its own triple followed by its subtree's. -/
def triplesOfNode (p : String) : FSTree → List Triple
  | .file _ _ _ _ => []
  | .dir n _ _ cs =>
    if keepDirName n then
      (joinPath p n, keptDirChildren cs, fileChildren cs) :: triplesOfChildren (joinPath p n) cs
    else []

/-- The `os.walk` triples strictly below a directory whose path is
`p` and whose listing is the given one, in top-down order, descending
only into kept directories. -/
def triplesOfChildren (p : String) : FSList → List Triple
  | .nil => []
  | .cons t ts => triplesOfNode p t ++ triplesOfChildren p ts

end

/-- All `os.walk(root)` triples: the root's own triple, then its
subtree. -/
def rootTriples (root : String) (cs : FSList) : List Triple :=
  (root, keptDirChildren cs, fileChildren cs) :: triplesOfChildren root cs

/-- The crawl parameters fixed for one `index_path_walk` call. -/
structure CrawlCfg where
  stopAfter : Option Nat
  failAt : Option Nat
  fsType : String
  now : Int
  hasCallback : Bool
deriving DecidableEq

/-- The mutable state of one crawl: the poll counter of the stop
flag, `indexed_count`, the number of commits performed, the in-memory
`batch`, the committed rows of the `files` table, the progress
callbacks fired, and a ghost trace `log` of every row ever appended
to a batch (in order). -/
structure CrawlSt where
  time : Nat
  count : Nat
  commits : Nat
  batch : List Row
  files : List Row
  events : List (Nat × String)
  log : List Row
deriving DecidableEq

/-- Outcome of a walk section: still walking, stop flag observed, or
an exception on its way to the `except` handler. -/
inductive Step where
  | ok : CrawlSt → Step
  | stopped : CrawlSt → Step
  | failed : CrawlSt → Step
deriving DecidableEq

/-- The state carried by any outcome. -/
def stateOf : Step → CrawlSt
  | .ok st => st
  | .stopped st => st
  | .failed st => st

/-- `batch_size` (src/main.py line 206). -/
def batchSize : Nat := 5000

/-- `progress_interval` (src/main.py line 207). -/
def progressInterval : Nat := 2000

/-- One read of `stop_flag.is_set()`: its value, and the state with
the poll counter advanced. -/
def flagRead (cfg : CrawlCfg) (st : CrawlSt) : Bool × CrawlSt :=
  (match cfg.stopAfter with
   | none => false
   | some k => decide (k ≤ st.time),
   { st with time := st.time + 1 })

/-- `executemany(INSERT ...)` of the current batch followed by
`COMMIT` (and `BEGIN` of the next transaction): on success the batch
becomes visible in `files`; the commit whose index equals `failAt`
raises instead, rolling the in-flight batch back. -/
def doCommit (cfg : CrawlCfg) (st : CrawlSt) : Bool × CrawlSt :=
  if cfg.failAt = some st.commits then
    (true, { st with commits := st.commits + 1 })
  else
    (false, { st with files := st.files ++ st.batch, batch := [], commits := st.commits + 1 })

/-- The `for dirname in dirnames` body (src/main.py lines 222-239):
`lstat` the kept directory and append its row to the batch (size 0,
empty extension, `is_directory = 1`); an `OSError` skips the entry.
No stop-flag check, no count, no flush. -/
def appendDirRow (cfg : CrawlCfg) (dirpath : String) (st : CrawlSt) (t : FSTree) : CrawlSt :=
  match t with
  | .dir n mtime ok _ =>
    if ok then
      let row : Row := { path := joinPath dirpath n, filename := n, extension := "",
                         size := 0, modified := mtime, isDirectory := true,
                         filesystemType := cfg.fsType, indexedAt := cfg.now }
      { st with batch := st.batch ++ [row], log := st.log ++ [row] }
    else st
  | .file _ _ _ _ => st

/-- Append the row of a successfully-stat'ed file to the batch and
bump `indexed_count`. -/
def pushFileRow (cfg : CrawlCfg) (dirpath n : String) (size : Nat) (mtime : Int)
    (st : CrawlSt) : CrawlSt :=
  { st with
    batch := st.batch ++ [{ path := joinPath dirpath n, filename := n, extension := extOf n,
                            size := size, modified := mtime, isDirectory := false,
                            filesystemType := cfg.fsType, indexedAt := cfg.now }],
    log := st.log ++ [{ path := joinPath dirpath n, filename := n, extension := extOf n,
                        size := size, modified := mtime, isDirectory := false,
                        filesystemType := cfg.fsType, indexedAt := cfg.now }],
    count := st.count + 1 }

/-- Fire the progress callback after a flush when `indexed_count` is
a multiple of `progress_interval` (src/main.py lines 279-283). -/
def pushEvent (cfg : CrawlCfg) (dirpath : String) (st : CrawlSt) : CrawlSt :=
  if cfg.hasCallback && st.count % progressInterval == 0 then
    { st with events := st.events ++ [(st.count, dirpath)] }
  else st

/-- The `for filename in filenames` body (src/main.py lines 241-286):
check the stop flag, `lstat` (a failure skips the entry), append the
file row, bump `indexed_count`, flush when the batch has reached
`batch_size`, and fire the progress callback on the flush when the
count is a multiple of `progress_interval`. -/
def processFile (cfg : CrawlCfg) (dirpath : String) (t : FSTree) (st : CrawlSt) : Step :=
  match t with
  | .dir _ _ _ _ => .ok st
  | .file n size mtime ok =>
    if (flagRead cfg st).1 then .stopped (flagRead cfg st).2
    else if !ok then .ok (flagRead cfg st).2
    else if batchSize ≤ (pushFileRow cfg dirpath n size mtime (flagRead cfg st).2).batch.length then
      if (doCommit cfg (pushFileRow cfg dirpath n size mtime (flagRead cfg st).2)).1 then
        .failed (doCommit cfg (pushFileRow cfg dirpath n size mtime (flagRead cfg st).2)).2
      else
        .ok (pushEvent cfg dirpath
          (doCommit cfg (pushFileRow cfg dirpath n size mtime (flagRead cfg st).2)).2)
    else .ok (pushFileRow cfg dirpath n size mtime (flagRead cfg st).2)

/-- The file loop over one triple's `filenames`. -/
def processFiles (cfg : CrawlCfg) (dirpath : String) : List FSTree → CrawlSt → Step
  | [], st => .ok st
  | f :: fs, st =>
    match processFile cfg dirpath f st with
    | .ok st => processFiles cfg dirpath fs st
    | r => r

/-- The walk loop (src/main.py lines 212-286): per triple, check the
stop flag (a set flag breaks the walk), append the kept directories'
rows, then run the file loop; a break out of the file loop likewise
ends the walk (the next triple's check observes the same monotone
flag). -/
def runTriples (cfg : CrawlCfg) : List Triple → CrawlSt → Step
  | [], st => .ok st
  | (p, ds, fs) :: rest, st =>
    if (flagRead cfg st).1 then .stopped (flagRead cfg st).2
    else
      match processFiles cfg p fs (ds.foldl (appendDirRow cfg p) (flagRead cfg st).2) with
      | .ok st => runTriples cfg rest st
      | r => r

/-- The caller-visible outcome of `index_path`: the normal-completion
print, the `Indexing stopped` print, or the `except` handler. -/
inductive Outcome where
  | completed : Outcome
  | stopped : Outcome
  | failed : Outcome
deriving DecidableEq

/-- What one `index_path` call returns and leaves behind. -/
structure CrawlResult where
  files : List Row
  mounts : List MountRow
  count : Nat
  events : List (Nat × String)
  outcome : Outcome
  log : List Row
deriving DecidableEq

/-- src/main.py line 288: the rows inserted by the final flush and
the state after its flag read, if any — `if batch and not (stop_flag
and stop_flag.is_set())`: an empty batch reads nothing and inserts
nothing, and a set flag skips the final flush, discarding the
in-memory batch. -/
def flushPending (cfg : CrawlCfg) (st : CrawlSt) : List Row × CrawlSt :=
  if st.batch.isEmpty then ([], st)
  else
    if (flagRead cfg st).1 then ([], (flagRead cfg st).2)
    else ((flagRead cfg st).2.batch, (flagRead cfg st).2)

/-- The state on which the final `COMMIT` of src/main.py line 298
acts: the post-flush state whose open transaction holds exactly the
pending rows of the final flush. -/
def commitArg (cfg : CrawlCfg) (st : CrawlSt) : CrawlSt :=
  { (flushPending cfg st).2 with batch := (flushPending cfg st).1 }

/-- src/main.py lines 288-314: flush the remaining batch unless the
stop flag is set, `COMMIT` (a failure goes to the `except` handler:
rollback, mounts untouched), update `last_indexed` for the root
unless the flag is set, and print stopped or completed according to
one more read. -/
def finishCrawl (cfg : CrawlCfg) (root : String) (mounts : List MountRow)
    (st : CrawlSt) : CrawlResult :=
  if (doCommit cfg (commitArg cfg st)).1 then
    { files := (doCommit cfg (commitArg cfg st)).2.files, mounts := mounts,
      count := (doCommit cfg (commitArg cfg st)).2.count,
      events := (doCommit cfg (commitArg cfg st)).2.events, outcome := .failed,
      log := (doCommit cfg (commitArg cfg st)).2.log }
  else
    { files := (flagRead cfg (flagRead cfg (doCommit cfg (commitArg cfg st)).2).2).2.files,
      mounts := if (flagRead cfg (doCommit cfg (commitArg cfg st)).2).1 then mounts
                else updateLastIndexed mounts root cfg.now,
      count := (flagRead cfg (flagRead cfg (doCommit cfg (commitArg cfg st)).2).2).2.count,
      events := (flagRead cfg (flagRead cfg (doCommit cfg (commitArg cfg st)).2).2).2.events,
      outcome := if (flagRead cfg (flagRead cfg (doCommit cfg (commitArg cfg st)).2).2).1
                 then .stopped else .completed,
      log := (flagRead cfg (flagRead cfg (doCommit cfg (commitArg cfg st)).2).2).2.log }

/-- The initial crawl state over an already-purged `files` table. -/
def initSt (files : List Row) : CrawlSt :=
  { time := 0, count := 0, commits := 0, batch := [], files := files, events := [], log := [] }

/-- The body of `FileIndexer.index_path` from the purge onward as it
would execute if the `BEGIN` of src/main.py line 210 succeeded (it
never does — see `index_path`): purge under the root, walk, then the
finishing sequence of lines 288-314; an exception inside the walk
reaches the `except` handler, which rolls back the in-flight batch
and falls through to `return indexed_count` with the mount table
untouched. -/
def index_path_walk (cfg : CrawlCfg) (root : String) (rootChildren : FSList)
    (db : DB) : CrawlResult :=
  match runTriples cfg (rootTriples root rootChildren) (initSt (purgeUnderRoot db.files root)) with
  | .failed st => { files := st.files, mounts := db.mounts, count := st.count,
                    events := st.events, outcome := .failed, log := st.log }
  | .ok st => finishCrawl cfg root db.mounts st
  | .stopped st => finishCrawl cfg root db.mounts st

/-- `cursor.execute("BEGIN TRANSACTION")` (src/main.py line 210),
issued on a connection whose transaction state is `inTxn`: SQLite
refuses to start a transaction inside an open one. -/
def beginTransaction (inTxn : Bool) : Except String Unit :=
  if inTxn then Except.error "cannot start a transaction within a transaction"
  else Except.ok ()

/-- The connection's transaction state when line 210 runs:
`sqlite3.connect` (src/main.py line 60) keeps the default legacy
isolation level, under which the DML `DELETE` of line 203 first opens
an implicit transaction, so by line 210 the connection is already in
a transaction. -/
def inTxnAfterPurge : Bool := true

/-- `FileIndexer.index_path` (src/main.py lines 196-320): the purge
`DELETE` of line 203 runs inside a freshly opened implicit
transaction, so the explicit `BEGIN TRANSACTION` of line 210 raises;
the `except` handler of lines 316-319 prints the error, issues
`ROLLBACK` — undoing the uncommitted purge — and falls through to
`return indexed_count`, still 0.  The walk (`index_path_walk`) runs
only if the `BEGIN` succeeds, which it never does. -/
def index_path (cfg : CrawlCfg) (root : String) (rootChildren : FSList)
    (db : DB) : CrawlResult :=
  match beginTransaction inTxnAfterPurge with
  | Except.error _ =>
      { files := db.files, mounts := db.mounts, count := 0,
        events := [], outcome := .failed, log := [] }
  | Except.ok _ => index_path_walk cfg root rootChildren db

/-! ## Specification-side definitions

Used to compare the crawl against the specification's words. -/

mutual

/-- Modelled from the spec, one node's contribution: a file counts
when its metadata is successfully read; a directory is never counted
and its subtree only contributes when the directory is not skipped. -/
def specFileCountT : FSTree → Nat
  | .file _ _ _ ok => if ok then 1 else 0
  | .dir n _ _ cs => if keepDirName n then specFileCount cs else 0

/-- Modelled from the spec: the number of files beneath a listing
whose metadata is successfully read, honouring the hidden-directory
skip rule ("counts only files whose metadata was successfully read",
"skipped subtrees are never visited or counted"). -/
def specFileCount : FSList → Nat
  | .nil => 0
  | .cons t ts => specFileCountT t + specFileCount ts

end

/-- The row the crawl appends for a kept directory child that stats
successfully (`none` for a failed `lstat` or a file node). -/
def dirRowOf (cfg : CrawlCfg) (p : String) : FSTree → Option Row
  | .dir n mtime ok _ =>
    if ok then
      some { path := joinPath p n, filename := n, extension := "", size := 0,
             modified := mtime, isDirectory := true, filesystemType := cfg.fsType,
             indexedAt := cfg.now }
    else none
  | .file _ _ _ _ => none

/-- The row the crawl appends for a file child that stats
successfully (`none` for a failed `lstat` or a directory node). -/
def fileRowOf (cfg : CrawlCfg) (p : String) : FSTree → Option Row
  | .file n size mtime ok =>
    if ok then
      some { path := joinPath p n, filename := n, extension := extOf n, size := size,
             modified := mtime, isDirectory := false, filesystemType := cfg.fsType,
             indexedAt := cfg.now }
    else none
  | .dir _ _ _ _ => none

/-- The rows a crawl derives from one triple, in append order: the
kept directories that stat successfully, then the files that stat
successfully. -/
def tripleRows (cfg : CrawlCfg) (t : Triple) : List Row :=
  t.2.1.filterMap (dirRowOf cfg t.1) ++ t.2.2.filterMap (fileRowOf cfg t.1)

/-- The rows a crawl of the given triples appends, in order. -/
def triplesRows (cfg : CrawlCfg) (ts : List Triple) : List Row :=
  (ts.map (tripleRows cfg)).flatten

/-! ## The `/data` scenario store

Root `/data` containing files `a.txt` (size 10), `B.txt` (size 20)
and directory `sub`, as written by a crawl with filesystem type
`ext4` at time 0. -/

/-- The `a.txt` entry of the scenario store. -/
def aRow : Row :=
  { path := "/data/a.txt", filename := "a.txt", extension := ".txt", size := 10,
    modified := 0, isDirectory := false, filesystemType := "ext4", indexedAt := 0 }

/-- The `B.txt` entry of the scenario store. -/
def bRow : Row :=
  { path := "/data/B.txt", filename := "B.txt", extension := ".txt", size := 20,
    modified := 0, isDirectory := false, filesystemType := "ext4", indexedAt := 0 }

/-- The `sub` directory entry of the scenario store. -/
def subRow : Row :=
  { path := "/data/sub", filename := "sub", extension := "", size := 0,
    modified := 0, isDirectory := true, filesystemType := "ext4", indexedAt := 0 }

/-- The scenario `files` table. -/
def scenarioFiles : List Row := [aRow, bRow, subRow]

/-- The scenario store with one registered, never-indexed mount. -/
def scenarioDB : DB :=
  { files := scenarioFiles,
    mounts := [{ path := "/data", filesystemType := "ext4", lastIndexed := none, enabled := true }] }

/-- The `/data` scenario as a filesystem tree, for crawling. -/
def fsData : FSList :=
  .cons (.file "a.txt" 10 0 true) (.cons (.file "B.txt" 20 0 true) (.cons (.dir "sub" 0 true .nil) .nil))

/-- A crawl configuration with no cancellation and no transaction
failure. -/
def crawlCfg0 : CrawlCfg :=
  { stopAfter := none, failAt := none, fsType := "ext4", now := 0, hasCallback := true }

/-- A crawl configuration whose stop flag becomes set at the second
poll (poll indices from 0). -/
def crawlCfgStop : CrawlCfg := { crawlCfg0 with stopAfter := some 1 }

/-- A small root listing for the cancellation scenario: one ordinary
subdirectory, then one file. -/
def fsStopScenario : FSList :=
  .cons (.dir "d" 0 true .nil) (.cons (.file "f" 5 0 true) .nil)

/-- The row the cancellation-scenario crawl batches for directory
`d`. -/
def dRow : Row :=
  { path := "/r/d", filename := "d", extension := "", size := 0, modified := 0,
    isDirectory := true, filesystemType := "ext4", indexedAt := 0 }

/-- An empty store. -/
def emptyDB : DB := { files := [], mounts := [] }

/-- A store entry whose path shares the string prefix `/data` without
being `/data` or nested under it. -/
def sibRow : Row := { aRow with path := "/database/f" }

/-- The number of file (non-directory) rows in a list. -/
def fileRowCount (l : List Row) : Nat :=
  (l.filter (fun r => !r.isDirectory)).length

/-- The number of file nodes in a listing whose `lstat` succeeds
(directly, not descending). -/
def okFilesOf : List FSTree → Nat
  | [] => 0
  | .file _ _ _ ok :: ts => (if ok then 1 else 0) + okFilesOf ts
  | .dir _ _ _ _ :: ts => okFilesOf ts

/-- The counting invariant of a crawl state: `indexed_count` equals
the number of file (non-directory) rows ever appended to a batch, and
every progress callback so far reported the file-row count of some
prefix of that append trace — directories are stored but never
counted, neither in the returned count nor in progress counts. -/
def countInv (st : CrawlSt) : Prop :=
  st.count = fileRowCount st.log
    ∧ ∀ e ∈ st.events, ∃ l1 l2, st.log = l1 ++ l2 ∧ e.1 = fileRowCount l1

/-! # Theorems -/

/-! ## The result order -/

theorem charsLE_total : ∀ (a b : List Char), charsLE a b = true ∨ charsLE b a = true
  | [], _ => Or.inl rfl
  | _ :: _, [] => Or.inr rfl
  | a :: as, b :: bs => by
    rcases Nat.lt_trichotomy a.toNat b.toNat with h | h | h
    · left; simp [charsLE, h]
    · rcases charsLE_total as bs with ih | ih
      · left; simp [charsLE, h, ih]
      · right; simp [charsLE, h.symm, ih]
    · right; simp [charsLE, h]

theorem charsLE_trans : ∀ (a b c : List Char),
    charsLE a b = true → charsLE b c = true → charsLE a c = true
  | [], _, _, _, _ => rfl
  | _ :: _, [], _, h1, _ => by simp [charsLE] at h1
  | _ :: _, _ :: _, [], _, h2 => by simp [charsLE] at h2
  | a :: as, b :: bs, c :: cs, h1, h2 => by
    simp only [charsLE, Bool.or_eq_true, Bool.and_eq_true, decide_eq_true_eq] at h1 h2 ⊢
    rcases h1 with h1 | ⟨h1e, h1r⟩ <;> rcases h2 with h2 | ⟨h2e, h2r⟩
    · exact Or.inl (Nat.lt_trans h1 h2)
    · exact Or.inl (h2e ▸ h1)
    · exact Or.inl (h1e ▸ h2)
    · exact Or.inr ⟨h1e.trans h2e, charsLE_trans as bs cs h1r h2r⟩

theorem rowLE_total (a b : Row) : rowLE a b ∨ rowLE b a := by
  unfold rowLE
  cases ha : a.isDirectory <;> cases hb : b.isDirectory <;> simp
  · exact charsLE_total a.filename.data b.filename.data
  · exact charsLE_total a.filename.data b.filename.data

theorem rowLE_trans (a b c : Row) (h1 : rowLE a b) (h2 : rowLE b c) : rowLE a c := by
  unfold rowLE at h1 h2 ⊢
  cases ha : a.isDirectory <;> cases hb : b.isDirectory <;> cases hc : c.isDirectory <;>
    simp_all
  · exact charsLE_trans _ _ _ h1 h2
  · exact charsLE_trans _ _ _ h1 h2

theorem sorted_sortRows (l : List Row) : List.Sorted rowLE (sortRows l) := by
  haveI : IsTotal Row rowLE := ⟨rowLE_total⟩
  haveI : IsTrans Row rowLE := ⟨rowLE_trans⟩
  exact List.sorted_insertionSort rowLE l

theorem mem_sortRows {x : Row} {l : List Row} (h : x ∈ sortRows l) : x ∈ l :=
  (List.perm_insertionSort rowLE l).mem_iff.mp h

/-! ## Search: ordering, caps, filters -/

/-- C4 (corrected).  For every search, literal or regex, the result
list is sorted by the order `ORDER BY is_directory DESC, filename`
actually produces: directories before files, then filename ascending
under the BINARY (case-sensitive, codepoint) collation — not under a
case-insensitive collation as the claim states. -/
theorem C4_results_sorted_dirs_first_binary_name :
    ∀ (files : List Row) (q : String) (mc rm : Bool) (mr : Nat) (sp : Bool)
      (ft : String) (df : Option String),
      List.Sorted rowLE (search files q mc rm mr sp ft df) := by
  intro files q mc rm mr sp ft df
  unfold search
  split
  · exact List.sorted_nil
  · split
    · cases hc : reCompile q with
      | none => simp only [hc]; exact List.sorted_nil
      | some re =>
        simp only [hc]
        refine List.Pairwise.sublist ?_ (sorted_sortRows (files.filter (drivePredB df)))
        exact ((List.take_sublist ..).trans (List.filter_sublist _)).trans (List.take_sublist ..)
    · exact List.Pairwise.sublist (List.take_sublist ..) (sorted_sortRows _)

/-- C4 (counterexample).  On the `/data` scenario store,
`search("txt", matchCase=false)` returns `B.txt` before `a.txt`
(BINARY collation: `B` < `a`), not `["a.txt", "B.txt"]` as the claim
states. -/
theorem C4_counterexample_scenario_order :
    search scenarioFiles "txt" false false 1000 false "all" none = [bRow, aRow]
      ∧ bRow.filename = "B.txt" ∧ aRow.filename = "a.txt"
      ∧ search scenarioFiles "txt" false false 1000 false "all" none ≠ [aRow, bRow] := by
  decide

/-- C8 (confirmed).  For every query and option combination the
result has length at most `maxResults`, and if no row of the store
satisfies the row-level match condition of the call, the result is
the empty list (never an error: `search` is total). -/
theorem C8_results_capped_and_empty_on_no_match :
    ∀ (files : List Row) (q : String) (mc rm : Bool) (mr : Nat) (sp : Bool)
      (ft : String) (df : Option String),
      (search files q mc rm mr sp ft df).length ≤ mr ∧
      ((∀ r ∈ files, searchRowMatch q mc rm sp ft df r = false) →
        search files q mc rm mr sp ft df = []) := by
  intro files q mc rm mr sp ft df
  constructor
  · unfold search
    split
    · simp
    · split
      · cases hc : reCompile q with
        | none => simp [hc]
        | some re => simp only [hc]; exact List.length_take_le ..
      · exact List.length_take_le ..
  · intro h
    unfold search
    split
    · rfl
    · rename_i hq
      split
      · rename_i hrm
        cases hc : reCompile q with
        | none => simp [hc]
        | some re =>
          simp only [hc]
          have hfil :
              (((sortRows (files.filter (drivePredB df))).take (mr * 5)).filter
                (fun r => reSearch (!mc) re (targetField sp r))) = [] := by
            refine List.filter_eq_nil_iff.mpr ?_
            intro r hr
            have hrf : r ∈ files.filter (drivePredB df) :=
              mem_sortRows (List.mem_of_mem_take hr)
            have hmem := (List.mem_filter.mp hrf).1
            have hdrive := (List.mem_filter.mp hrf).2
            have hmatch := h r hmem
            unfold searchRowMatch at hmatch
            rw [if_pos hrm] at hmatch
            simp only [hc, hdrive, Bool.true_and] at hmatch
            simp [hmatch]
          rw [hfil]
          simp
      · rename_i hrm
        have hfil : files.filter (fun r =>
            sqlLike ("%" ++ q ++ "%") (targetField sp r)
              && fileTypePredB ft r && drivePredB df r) = [] := by
          refine List.filter_eq_nil_iff.mpr ?_
          intro r hr
          have := h r hr
          simp only [searchRowMatch] at this
          rw [if_neg hrm] at this
          simp [this]
        rw [hfil]
        simp [sortRows, List.insertionSort]

/-- C3 (code bug).  In literal mode `match_case` has no effect:
SQLite's `LIKE` is ASCII-case-insensitive whether or not the
`COLLATE NOCASE` suffix is appended, so on the `/data` scenario
store `search("TXT", matchCase=true)` returns both `B.txt` and
`a.txt` instead of the empty list the claim (and the evident intent
of the `match_case` parameter) requires. -/
theorem C3_literal_matchCase_ineffective :
    search scenarioFiles "TXT" true false 1000 false "all" none = [bRow, aRow]
      ∧ search scenarioFiles "TXT" true false 1000 false "all" none ≠ []
      ∧ search scenarioFiles "TXT" true false 1000 false "all" none
          = search scenarioFiles "TXT" false false 1000 false "all" none := by
  decide

/-- C5 (counterexample).  In regex mode `file_type` is ignored: on
the `/data` scenario store a regex search for `sub` with
`fileTypeFilter="files"` returns the directory entry `sub`
(`isDirectory = true`), which the claim forbids. -/
theorem C5_counterexample_regex_ignores_fileType :
    search scenarioFiles "sub" false true 1000 false "files" none = [subRow]
      ∧ subRow.isDirectory = true := by
  decide

/-- C5 (corrected).  In literal mode `fileTypeFilter` narrows exactly
as claimed ("files" never yields a directory, "folders" never yields
a file), but in regex mode the filter is never consulted: the regex
result is identical whatever `file_type` is passed, so both kinds may
appear regardless of the filter. -/
theorem C5_fileTypeFilter_literal_only :
    ∀ (files : List Row) (q : String) (mc : Bool) (mr : Nat) (sp : Bool)
      (ft : String) (df : Option String),
      (search files q mc true mr sp ft df = search files q mc true mr sp "all" df)
      ∧ (∀ r ∈ search files q mc false mr sp "files" df, r.isDirectory = false)
      ∧ (∀ r ∈ search files q mc false mr sp "folders" df, r.isDirectory = true) := by
  intro files q mc mr sp ft df
  refine ⟨rfl, ?_, ?_⟩
  · intro r hr
    unfold search at hr
    split at hr
    · cases hr
    · have hrf := mem_sortRows (List.mem_of_mem_take hr)
      have hpred := (List.mem_filter.mp hrf).2
      simp only [Bool.and_eq_true] at hpred
      have hft := hpred.1.2
      unfold fileTypePredB at hft
      rw [if_pos rfl] at hft
      simpa using hft
  · intro r hr
    unfold search at hr
    split at hr
    · cases hr
    · have hrf := mem_sortRows (List.mem_of_mem_take hr)
      have hpred := (List.mem_filter.mp hrf).2
      simp only [Bool.and_eq_true] at hpred
      have hft := hpred.1.2
      unfold fileTypePredB at hft
      rw [if_neg (by decide), if_pos rfl] at hft
      exact hft

/-- C5 (witness). -/
theorem C5_fileTypeFilter_literal_only_witness :
    (search scenarioFiles "sub" false true 5 false "files" none
        = search scenarioFiles "sub" false true 5 false "all" none)
      ∧ aRow.isDirectory = false
      ∧ subRow.isDirectory = true :=
  ⟨(C5_fileTypeFilter_literal_only scenarioFiles "sub" false 5 false "files" none).1,
   (C5_fileTypeFilter_literal_only scenarioFiles "a" false 5 false "all" none).2.1
     aRow (by decide),
   (C5_fileTypeFilter_literal_only scenarioFiles "sub" false 5 false "all" none).2.2
     subRow (by decide)⟩

/-- C6 (counterexample).  The invalid pattern `(` is not surfaced as
an error: the regex search over the scenario store returns the empty
list with the store unchanged — exactly the value a successful search
with zero matches (pattern `zzz`, which compiles) returns, so the
caller cannot distinguish a rejected request from an empty result. -/
theorem C6_counterexample_invalid_regex_indistinguishable :
    reCompile "(" = none
      ∧ searchDB scenarioDB "(" false true 1000 false "all" none = ([], scenarioDB)
      ∧ searchDB scenarioDB "zzz" false true 1000 false "all" none = ([], scenarioDB)
      ∧ reCompile "zzz" ≠ none := by
  decide

/-- C6 (corrected).  A pattern on which regex compilation fails does
not crash the search and leaves the store untouched, but it is not
reported as a distinguishable error: the exception is caught and the
caller receives the plain empty list, identical to a successful
zero-match result. -/
theorem C6_invalid_regex_empty_result_store_untouched :
    ∀ (db : DB) (q : String) (mc : Bool) (mr : Nat) (sp : Bool) (ft : String)
      (df : Option String),
      reCompile q = none →
      searchDB db q mc true mr sp ft df = ([], db) := by
  intro db q mc mr sp ft df hc
  unfold searchDB search
  split
  · rfl
  · simp [hc]

/-- C6 (witness). -/
theorem C6_invalid_regex_empty_result_store_untouched_witness :
    searchDB scenarioDB "(" false true 1000 false "all" none = ([], scenarioDB) :=
  C6_invalid_regex_empty_result_store_untouched scenarioDB "(" false 1000 false "all" none
    (by decide)

/-! ## Crawl: cancellation, completion and the mount table -/

theorem flagRead_snd (cfg : CrawlCfg) (st : CrawlSt) :
    (flagRead cfg st).2 = { st with time := st.time + 1 } := rfl

theorem flagRead_fst_true {cfg : CrawlCfg} {st : CrawlSt}
    (h : (flagRead cfg st).1 = true) :
    ∃ k, cfg.stopAfter = some k ∧ k ≤ st.time := by
  unfold flagRead at h
  cases hsa : cfg.stopAfter with
  | none => rw [hsa] at h; cases h
  | some k => rw [hsa] at h; exact ⟨k, rfl, of_decide_eq_true h⟩

theorem flagRead_fst_of_le {cfg : CrawlCfg} {st : CrawlSt} {k : Nat}
    (hsa : cfg.stopAfter = some k) (hk : k ≤ st.time) :
    (flagRead cfg st).1 = true := by
  unfold flagRead
  rw [hsa]
  exact decide_eq_true hk

theorem processFile_stopped {cfg : CrawlCfg} {p : String} {f : FSTree} {st st' : CrawlSt}
    (h : processFile cfg p f st = .stopped st') :
    ∃ k, cfg.stopAfter = some k ∧ k < st'.time := by
  cases f with
  | dir n m o c => exact absurd h (by unfold processFile; simp)
  | file n size mtime ok =>
    simp only [processFile] at h
    split at h
    · rename_i hflag
      cases h
      obtain ⟨k, hsa, hk⟩ := flagRead_fst_true hflag
      exact ⟨k, hsa, Nat.lt_succ_of_le hk⟩
    · split at h
      · cases h
      · split at h
        · split at h
          · cases h
          · cases h
        · cases h

theorem processFiles_stopped {cfg : CrawlCfg} {p : String} :
    ∀ (fs : List FSTree) {st st' : CrawlSt},
      processFiles cfg p fs st = .stopped st' →
      ∃ k, cfg.stopAfter = some k ∧ k < st'.time := by
  intro fs
  induction fs with
  | nil => intro st st' h; exact absurd h (by unfold processFiles; simp)
  | cons f fs ih =>
    intro st st' h
    unfold processFiles at h
    rcases hpf : processFile cfg p f st with st1 | st1 | st1 <;> rw [hpf] at h
    · exact ih h
    · cases h; exact processFile_stopped hpf
    · cases h

theorem runTriples_stopped {cfg : CrawlCfg} :
    ∀ (ts : List Triple) {st st' : CrawlSt},
      runTriples cfg ts st = .stopped st' →
      ∃ k, cfg.stopAfter = some k ∧ k < st'.time := by
  intro ts
  induction ts with
  | nil => intro st st' h; exact absurd h (by unfold runTriples; simp)
  | cons t rest ih =>
    intro st st' h
    rcases t with ⟨p, ds, fs⟩
    unfold runTriples at h
    split at h
    · rename_i hflag
      cases h
      obtain ⟨k, hsa, hk⟩ := flagRead_fst_true hflag
      exact ⟨k, hsa, Nat.lt_succ_of_le hk⟩
    · rcases hpf : processFiles cfg p fs (ds.foldl (appendDirRow cfg p) (flagRead cfg st).2)
        with st1 | st1 | st1 <;> rw [hpf] at h
      · exact ih h
      · cases h; exact processFiles_stopped fs hpf
      · cases h

theorem flushPending_batch_time {cfg : CrawlCfg} {st : CrawlSt} :
    (flushPending cfg st).2.batch = st.batch ∧ (flushPending cfg st).2.commits = st.commits
      ∧ (flushPending cfg st).2.files = st.files ∧ (flushPending cfg st).2.count = st.count
      ∧ (flushPending cfg st).2.events = st.events ∧ (flushPending cfg st).2.log = st.log
      ∧ st.time ≤ (flushPending cfg st).2.time := by
  unfold flushPending
  split
  · exact ⟨rfl, rfl, rfl, rfl, rfl, rfl, Nat.le_refl _⟩
  · split <;> exact ⟨rfl, rfl, rfl, rfl, rfl, rfl, Nat.le_succ _⟩

theorem doCommit_fields (cfg : CrawlCfg) (st : CrawlSt) :
    (doCommit cfg st).2.time = st.time ∧ (doCommit cfg st).2.count = st.count
      ∧ (doCommit cfg st).2.events = st.events ∧ (doCommit cfg st).2.log = st.log
      ∧ ((doCommit cfg st).1 = true → (doCommit cfg st).2.files = st.files)
      ∧ ((doCommit cfg st).1 = false → (doCommit cfg st).2.files = st.files ++ st.batch) := by
  unfold doCommit
  split <;> simp

/-- After a walk that observed the stop flag, the finishing sequence
adds nothing to the committed rows, leaves the mount table untouched,
and never reports normal completion. -/
theorem finishCrawl_after_stop {cfg : CrawlCfg} {root : String} {mounts : List MountRow}
    {st : CrawlSt} {k : Nat} (hsa : cfg.stopAfter = some k) (hk : k < st.time) :
    (finishCrawl cfg root mounts st).files = st.files
      ∧ (finishCrawl cfg root mounts st).mounts = mounts
      ∧ (finishCrawl cfg root mounts st).outcome ≠ .completed := by
  have hpend : (flushPending cfg st).1 = [] := by
    unfold flushPending
    split
    · rfl
    · rw [if_pos (flagRead_fst_of_le hsa (Nat.le_of_lt hk))]
  have hps := @flushPending_batch_time cfg st
  have hd := doCommit_fields cfg (commitArg cfg st)
  have htime : k < (doCommit cfg (commitArg cfg st)).2.time := by
    have h1 := hd.1
    have h2 := hps.2.2.2.2.2.2
    have h3 : (commitArg cfg st).time = (flushPending cfg st).2.time := rfl
    omega
  unfold finishCrawl
  split
  · rename_i hfail
    refine ⟨?_, rfl, by simp⟩
    calc (doCommit cfg (commitArg cfg st)).2.files
        = (commitArg cfg st).files := hd.2.2.2.2.1 hfail
      _ = (flushPending cfg st).2.files := rfl
      _ = st.files := hps.2.2.1
  · rename_i hfail
    have hff : (doCommit cfg (commitArg cfg st)).1 = false := by
      cases h' : (doCommit cfg (commitArg cfg st)).1
      · rfl
      · exact absurd h' hfail
    have hfiles : (doCommit cfg (commitArg cfg st)).2.files = st.files := by
      calc (doCommit cfg (commitArg cfg st)).2.files
          = (commitArg cfg st).files ++ (commitArg cfg st).batch := hd.2.2.2.2.2 hff
        _ = (flushPending cfg st).2.files ++ (flushPending cfg st).1 := rfl
        _ = st.files ++ [] := by rw [hps.2.2.1, hpend]
        _ = st.files := List.append_nil _
    have hs1 : (flagRead cfg (doCommit cfg (commitArg cfg st)).2).1 = true :=
      flagRead_fst_of_le hsa (Nat.le_of_lt htime)
    have hs2 : (flagRead cfg (flagRead cfg (doCommit cfg (commitArg cfg st)).2).2).1 = true := by
      refine flagRead_fst_of_le hsa ?_
      rw [flagRead_snd]
      exact Nat.le_succ_of_le (Nat.le_of_lt htime)
    refine ⟨?_, ?_, ?_⟩
    · rw [flagRead_snd, flagRead_snd]
      exact hfiles
    · simp only [hs1, if_true]
    · simp only [hs2, if_true]
      simp

theorem finishCrawl_failed_mounts {cfg : CrawlCfg} {root : String} {mounts : List MountRow}
    {st : CrawlSt} (h : (finishCrawl cfg root mounts st).outcome = .failed) :
    (finishCrawl cfg root mounts st).mounts = mounts := by
  unfold finishCrawl at h ⊢
  split at h
  · rename_i hf
    rw [if_pos hf]
  · rename_i hf
    simp only [] at h
    split at h <;> cases h

theorem finishCrawl_completed_mounts {cfg : CrawlCfg} {root : String} {mounts : List MountRow}
    {st : CrawlSt} (h : (finishCrawl cfg root mounts st).outcome = .completed) :
    (finishCrawl cfg root mounts st).mounts = updateLastIndexed mounts root cfg.now := by
  unfold finishCrawl at h ⊢
  split at h
  · cases h
  · rename_i hf
    rw [if_neg hf]
    simp only [] at h ⊢
    have hs2 : (flagRead cfg (flagRead cfg (doCommit cfg (commitArg cfg st)).2).2).1 = false := by
      cases h2 : (flagRead cfg (flagRead cfg (doCommit cfg (commitArg cfg st)).2).2).1
      · rfl
      · rw [h2] at h; simp at h
    have hs1 : (flagRead cfg (doCommit cfg (commitArg cfg st)).2).1 = false := by
      cases h1 : (flagRead cfg (doCommit cfg (commitArg cfg st)).2).1
      · rfl
      · obtain ⟨k, hsa, hk⟩ := flagRead_fst_true h1
        have h2t : (flagRead cfg (flagRead cfg (doCommit cfg (commitArg cfg st)).2).2).1 = true :=
          flagRead_fst_of_le hsa (Nat.le_succ_of_le hk)
        rw [h2t] at hs2
        cases hs2
    rw [hs1]
    simp

theorem updateLastIndexed_at_root {mounts : List MountRow} {root : String} {now : Int} :
    ∀ m ∈ updateLastIndexed mounts root now, m.path = root → m.lastIndexed = some now := by
  intro m hm hp
  rcases List.mem_map.mp hm with ⟨m0, hm0, rfl⟩
  by_cases h0 : m0.path = root
  · rw [if_pos h0]
  · rw [if_neg h0] at hp ⊢
    exact absurd hp h0

/-- C8 (witness). -/
theorem C8_results_capped_and_empty_on_no_match_witness :
    (search scenarioFiles "qq" false false 1000 false "all" none).length ≤ 1000
      ∧ search scenarioFiles "qq" false false 1000 false "all" none = [] :=
  ⟨(C8_results_capped_and_empty_on_no_match scenarioFiles "qq" false false 1000 false "all"
      none).1,
   (C8_results_capped_and_empty_on_no_match scenarioFiles "qq" false false 1000 false "all"
      none).2 (by decide)⟩

/-! ## Crawl: hidden-directory pruning -/

theorem keptDirChildren_app_pruned {n : String} {m : Int} {ok : Bool} {cs : FSList}
    (hn : keepDirName n = false) :
    ∀ (pre post : FSList),
      keptDirChildren (fsApp pre (.cons (.dir n m ok cs) post))
        = keptDirChildren (fsApp pre post)
  | .nil, post => by
    simp only [fsApp, keptDirChildren, isDirNode, nodeName, hn, Bool.and_false, if_neg]
    simp
  | .cons t ts, post => by
    simp only [fsApp, keptDirChildren]
    rw [keptDirChildren_app_pruned hn ts post]

theorem fileChildren_app_pruned {n : String} {m : Int} {ok : Bool} {cs : FSList} :
    ∀ (pre post : FSList),
      fileChildren (fsApp pre (.cons (.dir n m ok cs) post)) = fileChildren (fsApp pre post)
  | .nil, post => by
    simp only [fsApp, fileChildren, isDirNode]
    simp
  | .cons t ts, post => by
    simp only [fsApp, fileChildren]
    rw [fileChildren_app_pruned ts post]

theorem triplesOfChildren_app_pruned {n : String} {m : Int} {ok : Bool} {cs : FSList}
    (hn : keepDirName n = false) :
    ∀ (p : String) (pre post : FSList),
      triplesOfChildren p (fsApp pre (.cons (.dir n m ok cs) post))
        = triplesOfChildren p (fsApp pre post)
  | p, .nil, post => by
    simp only [fsApp, triplesOfChildren, triplesOfNode, hn, if_neg]
    simp
  | p, .cons t ts, post => by
    simp only [fsApp, triplesOfChildren]
    rw [triplesOfChildren_app_pruned hn p ts post]

theorem rootTriples_app_pruned {n : String} {m : Int} {ok : Bool} {cs : FSList}
    (hn : keepDirName n = false) (root : String) (pre post : FSList) :
    rootTriples root (fsApp pre (.cons (.dir n m ok cs) post))
      = rootTriples root (fsApp pre post) := by
  unfold rootTriples
  rw [keptDirChildren_app_pruned hn, fileChildren_app_pruned, triplesOfChildren_app_pruned hn]

/-! ## Crawl: what the count counts -/

theorem fileRowCount_append (a b : List Row) :
    fileRowCount (a ++ b) = fileRowCount a + fileRowCount b := by
  simp [fileRowCount, List.filter_append]

theorem foldDirs_fields (cfg : CrawlCfg) (p : String) :
    ∀ (ds : List FSTree) (st : CrawlSt),
      ds.foldl (appendDirRow cfg p) st
        = { st with batch := st.batch ++ ds.filterMap (dirRowOf cfg p),
                    log := st.log ++ ds.filterMap (dirRowOf cfg p) }
  | [], st => by simp
  | d :: ds, st => by
    rw [List.foldl_cons, foldDirs_fields cfg p ds (appendDirRow cfg p st d)]
    cases d with
    | file a b c e =>
      simp [appendDirRow, dirRowOf, List.filterMap_cons]
    | dir n mtime ok cs =>
      cases ok with
      | true =>
        simp only [appendDirRow, if_pos rfl]
        simp [dirRowOf, List.filterMap_cons, List.append_assoc]
      | false =>
        simp only [appendDirRow]
        simp [dirRowOf, List.filterMap_cons]

theorem flagRead_stopAfter_none {cfg : CrawlCfg} (hsa : cfg.stopAfter = none) (st : CrawlSt) :
    flagRead cfg st = (false, { st with time := st.time + 1 }) := by
  unfold flagRead
  rw [hsa]

theorem doCommit_failAt_none {cfg : CrawlCfg} (hfa : cfg.failAt = none) (st : CrawlSt) :
    doCommit cfg st
      = (false, { st with files := st.files ++ st.batch, batch := [],
                          commits := st.commits + 1 }) := by
  unfold doCommit
  rw [hfa]
  simp

theorem pushEvent_fields (cfg : CrawlCfg) (p : String) (st : CrawlSt) :
    (pushEvent cfg p st).log = st.log ∧ (pushEvent cfg p st).count = st.count
      ∧ (pushEvent cfg p st).files = st.files ∧ (pushEvent cfg p st).batch = st.batch := by
  unfold pushEvent
  split <;> exact ⟨rfl, rfl, rfl, rfl⟩

theorem processFile_total {cfg : CrawlCfg} (hsa : cfg.stopAfter = none)
    (hfa : cfg.failAt = none) (p : String) (f : FSTree) (st : CrawlSt) :
    ∃ st', processFile cfg p f st = .ok st'
      ∧ st'.log = st.log ++ (fileRowOf cfg p f).toList
      ∧ st'.count = st.count + fileRowCount (fileRowOf cfg p f).toList
      ∧ st'.files ++ st'.batch = (st.files ++ st.batch) ++ (fileRowOf cfg p f).toList := by
  cases f with
  | dir a b c d =>
    exact ⟨st, rfl, by simp [fileRowOf], by simp [fileRowOf, fileRowCount],
      by simp [fileRowOf]⟩
  | file n size mtime ok =>
    have hflag : (flagRead cfg st).1 = false := by
      rw [flagRead_stopAfter_none hsa]
    cases ok with
    | false =>
      refine ⟨(flagRead cfg st).2, by simp [processFile, hflag], ?_, ?_, ?_⟩
        <;> rw [flagRead_stopAfter_none hsa] <;> simp [fileRowOf, fileRowCount]
    | true =>
      by_cases hlen :
          batchSize ≤ (pushFileRow cfg p n size mtime (flagRead cfg st).2).batch.length
      · have hcf : (doCommit cfg (pushFileRow cfg p n size mtime (flagRead cfg st).2)).1
            = false := by
          rw [doCommit_failAt_none hfa]
        refine ⟨pushEvent cfg p
            (doCommit cfg (pushFileRow cfg p n size mtime (flagRead cfg st).2)).2,
          by simp [processFile, hflag, hlen, hcf], ?_, ?_, ?_⟩
        · rw [(pushEvent_fields cfg p _).1, doCommit_failAt_none hfa,
            flagRead_stopAfter_none hsa]
          simp [pushFileRow, fileRowOf]
        · rw [(pushEvent_fields cfg p _).2.1, doCommit_failAt_none hfa,
            flagRead_stopAfter_none hsa]
          simp [pushFileRow, fileRowOf, fileRowCount]
        · rw [(pushEvent_fields cfg p _).2.2.1, (pushEvent_fields cfg p _).2.2.2,
            doCommit_failAt_none hfa, flagRead_stopAfter_none hsa]
          simp [pushFileRow, fileRowOf, List.append_assoc]
      · refine ⟨pushFileRow cfg p n size mtime (flagRead cfg st).2,
          by simp [processFile, hflag, hlen], ?_, ?_, ?_⟩
        · rw [flagRead_stopAfter_none hsa]
          simp [pushFileRow, fileRowOf]
        · rw [flagRead_stopAfter_none hsa]
          simp [pushFileRow, fileRowOf, fileRowCount]
        · rw [flagRead_stopAfter_none hsa]
          simp [pushFileRow, fileRowOf, List.append_assoc]

theorem processFiles_total {cfg : CrawlCfg} (hsa : cfg.stopAfter = none)
    (hfa : cfg.failAt = none) (p : String) :
    ∀ (fs : List FSTree) (st : CrawlSt),
      ∃ st', processFiles cfg p fs st = .ok st'
        ∧ st'.log = st.log ++ fs.filterMap (fileRowOf cfg p)
        ∧ st'.count = st.count + fileRowCount (fs.filterMap (fileRowOf cfg p))
        ∧ st'.files ++ st'.batch = (st.files ++ st.batch) ++ fs.filterMap (fileRowOf cfg p)
  | [], st => ⟨st, rfl, by simp, by simp [fileRowCount], by simp⟩
  | f :: fs, st => by
    obtain ⟨st1, h1, hl1, hc1, hf1⟩ := processFile_total hsa hfa p f st
    obtain ⟨st2, h2, hl2, hc2, hf2⟩ := processFiles_total hsa hfa p fs st1
    have htl : (f :: fs).filterMap (fileRowOf cfg p)
        = (fileRowOf cfg p f).toList ++ fs.filterMap (fileRowOf cfg p) := by
      cases hor : fileRowOf cfg p f <;> simp [List.filterMap_cons, hor]
    refine ⟨st2, ?_, ?_, ?_, ?_⟩
    · simp only [processFiles, h1]
      exact h2
    · rw [hl2, hl1, htl, List.append_assoc]
    · rw [hc2, hc1, htl, fileRowCount_append]
      omega
    · rw [hf2, hf1, htl, List.append_assoc]

theorem fileRowCount_dirRows (cfg : CrawlCfg) (p : String) :
    ∀ (ds : List FSTree), fileRowCount (ds.filterMap (dirRowOf cfg p)) = 0
  | [] => by simp [fileRowCount]
  | d :: ds => by
    cases d with
    | file a b c e =>
      simpa [List.filterMap_cons, dirRowOf] using fileRowCount_dirRows cfg p ds
    | dir n mtime ok cs =>
      cases ok with
      | true =>
        simp only [List.filterMap_cons, dirRowOf, if_pos rfl]
        simpa [fileRowCount] using fileRowCount_dirRows cfg p ds
      | false =>
        simpa [List.filterMap_cons, dirRowOf] using fileRowCount_dirRows cfg p ds

theorem runTriples_total {cfg : CrawlCfg} (hsa : cfg.stopAfter = none)
    (hfa : cfg.failAt = none) :
    ∀ (ts : List Triple) (st : CrawlSt),
      ∃ st', runTriples cfg ts st = .ok st'
        ∧ st'.log = st.log ++ triplesRows cfg ts
        ∧ st'.count = st.count + fileRowCount (triplesRows cfg ts)
        ∧ st'.files ++ st'.batch = (st.files ++ st.batch) ++ triplesRows cfg ts
  | [], st => ⟨st, rfl, by simp [triplesRows], by simp [triplesRows, fileRowCount],
      by simp [triplesRows]⟩
  | (p, ds, fs) :: rest, st => by
    have hflag : (flagRead cfg st).1 = false := by
      rw [flagRead_stopAfter_none hsa]
    obtain ⟨st1, h1, hl1, hc1, hf1⟩ :=
      processFiles_total hsa hfa p fs (ds.foldl (appendDirRow cfg p) (flagRead cfg st).2)
    obtain ⟨st2, h2, hl2, hc2, hf2⟩ := runTriples_total hsa hfa rest st1
    have hfold := foldDirs_fields cfg p ds (flagRead cfg st).2
    have htr : triplesRows cfg ((p, ds, fs) :: rest)
        = (ds.filterMap (dirRowOf cfg p) ++ fs.filterMap (fileRowOf cfg p))
          ++ triplesRows cfg rest := by
      simp [triplesRows, tripleRows]
    have hdr0 : fileRowCount (ds.filterMap (dirRowOf cfg p)) = 0 :=
      fileRowCount_dirRows cfg p ds
    refine ⟨st2, ?_, ?_, ?_, ?_⟩
    · simp only [runTriples, hflag, Bool.false_eq_true, if_false, h1]
      exact h2
    · rw [hl2, hl1, hfold]
      rw [flagRead_stopAfter_none hsa]
      simp only []
      rw [htr]
      simp [List.append_assoc]
    · rw [hc2, hc1, hfold]
      rw [flagRead_stopAfter_none hsa]
      simp only []
      rw [htr, fileRowCount_append, fileRowCount_append, hdr0]
      omega
    · rw [hf2, hf1, hfold]
      rw [flagRead_stopAfter_none hsa]
      simp only []
      rw [htr]
      simp [List.append_assoc]

theorem commitArg_fields {cfg : CrawlCfg} (hsa : cfg.stopAfter = none) (st : CrawlSt) :
    (commitArg cfg st).batch = st.batch ∧ (commitArg cfg st).files = st.files
      ∧ (commitArg cfg st).count = st.count ∧ (commitArg cfg st).events = st.events
      ∧ (commitArg cfg st).log = st.log := by
  have hps := @flushPending_batch_time cfg st
  have hb : (commitArg cfg st).batch = (flushPending cfg st).1 := rfl
  have h1 : (flushPending cfg st).1 = st.batch := by
    unfold flushPending
    split
    · rename_i hb'
      simp only []
      exact (List.isEmpty_iff.mp hb').symm
    · rw [if_neg (by rw [flagRead_stopAfter_none hsa]; simp)]
      rw [flagRead_snd]
  exact ⟨hb.trans h1, hps.2.2.1, hps.2.2.2.1, hps.2.2.2.2.1, hps.2.2.2.2.2.1⟩

theorem finishCrawl_total {cfg : CrawlCfg} {root : String} {mounts : List MountRow}
    {st : CrawlSt} (hsa : cfg.stopAfter = none) (hfa : cfg.failAt = none) :
    (finishCrawl cfg root mounts st).files = st.files ++ st.batch
      ∧ (finishCrawl cfg root mounts st).count = st.count
      ∧ (finishCrawl cfg root mounts st).log = st.log
      ∧ (finishCrawl cfg root mounts st).events = st.events
      ∧ (finishCrawl cfg root mounts st).outcome = .completed
      ∧ (finishCrawl cfg root mounts st).mounts = updateLastIndexed mounts root cfg.now := by
  have hca := commitArg_fields hsa st
  have hdc := doCommit_failAt_none hfa (commitArg cfg st)
  have hdc1 : (doCommit cfg (commitArg cfg st)).1 = false := by rw [hdc]
  have hs1 : (flagRead cfg (doCommit cfg (commitArg cfg st)).2).1 = false := by
    rw [flagRead_stopAfter_none hsa]
  have hs2 : (flagRead cfg (flagRead cfg (doCommit cfg (commitArg cfg st)).2).2).1 = false := by
    rw [flagRead_stopAfter_none hsa]
  unfold finishCrawl
  rw [if_neg (by rw [hdc1]; simp)]
  refine ⟨?_, ?_, ?_, ?_, ?_, ?_⟩
  · show (doCommit cfg (commitArg cfg st)).2.files = st.files ++ st.batch
    rw [hdc]
    show (commitArg cfg st).files ++ (commitArg cfg st).batch = st.files ++ st.batch
    rw [hca.1, hca.2.1]
  · show (doCommit cfg (commitArg cfg st)).2.count = st.count
    rw [hdc]
    exact hca.2.2.1
  · show (doCommit cfg (commitArg cfg st)).2.log = st.log
    rw [hdc]
    exact hca.2.2.2.2
  · show (doCommit cfg (commitArg cfg st)).2.events = st.events
    rw [hdc]
    exact hca.2.2.2.1
  · show (if (flagRead cfg (flagRead cfg (doCommit cfg (commitArg cfg st)).2).2).1 = true
        then Outcome.stopped else Outcome.completed) = Outcome.completed
    rw [hs2]
    simp
  · show (if (flagRead cfg (doCommit cfg (commitArg cfg st)).2).1 = true then mounts
        else updateLastIndexed mounts root cfg.now) = updateLastIndexed mounts root cfg.now
    rw [hs1]
    simp

/-- A crawl with no cancellation and no transaction failure commits
every row the walk reads, in order, completes, and stamps the root's
mount row: the resulting `files` table is the purge survivors
followed by exactly the rows of the walk. -/
theorem index_path_walk_total {cfg : CrawlCfg} (hsa : cfg.stopAfter = none)
    (hfa : cfg.failAt = none) (root : String) (cs : FSList) (db : DB) :
    (index_path_walk cfg root cs db).outcome = .completed
      ∧ (index_path_walk cfg root cs db).files
          = purgeUnderRoot db.files root ++ triplesRows cfg (rootTriples root cs)
      ∧ (index_path_walk cfg root cs db).log = triplesRows cfg (rootTriples root cs)
      ∧ (index_path_walk cfg root cs db).count
          = fileRowCount (triplesRows cfg (rootTriples root cs))
      ∧ (index_path_walk cfg root cs db).mounts = updateLastIndexed db.mounts root cfg.now := by
  obtain ⟨st', hrun, hl, hc, hf⟩ :=
    runTriples_total hsa hfa (rootTriples root cs) (initSt (purgeUnderRoot db.files root))
  have hidx : index_path_walk cfg root cs db = finishCrawl cfg root db.mounts st' := by
    unfold index_path_walk
    rw [hrun]
  have hfin := @finishCrawl_total _ root db.mounts st' hsa hfa
  simp only [initSt] at hl hc hf
  rw [hidx]
  refine ⟨hfin.2.2.2.2.1, ?_, ?_, ?_, hfin.2.2.2.2.2⟩
  · rw [hfin.1, hf]
    simp
  · rw [hfin.2.2.1, hl]
    simp
  · rw [hfin.2.1, hc]
    simp

theorem fileRowCount_fileRows (cfg : CrawlCfg) (p : String) :
    ∀ (fs : List FSTree), fileRowCount (fs.filterMap (fileRowOf cfg p)) = okFilesOf fs
  | [] => by simp [fileRowCount, okFilesOf]
  | f :: fs => by
    cases f with
    | dir a b c d =>
      simpa [List.filterMap_cons, fileRowOf, okFilesOf] using fileRowCount_fileRows cfg p fs
    | file n size mtime ok =>
      cases ok with
      | true =>
        simp only [List.filterMap_cons, fileRowOf, if_pos rfl]
        simp only [okFilesOf, if_pos rfl]
        have := fileRowCount_fileRows cfg p fs
        simp [fileRowCount, List.filter_cons] at this ⊢
        omega
      | false =>
        simpa [List.filterMap_cons, fileRowOf, okFilesOf] using fileRowCount_fileRows cfg p fs

theorem triplesRows_cons (cfg : CrawlCfg) (t : Triple) (ts : List Triple) :
    triplesRows cfg (t :: ts) = tripleRows cfg t ++ triplesRows cfg ts := by
  simp [triplesRows]

theorem triplesRows_append (cfg : CrawlCfg) (a b : List Triple) :
    triplesRows cfg (a ++ b) = triplesRows cfg a ++ triplesRows cfg b := by
  simp [triplesRows]

theorem tripleRows_count (cfg : CrawlCfg) (t : Triple) :
    fileRowCount (tripleRows cfg t) = okFilesOf t.2.2 := by
  rcases t with ⟨p, ds, fs⟩
  simp [tripleRows, fileRowCount_append, fileRowCount_dirRows, fileRowCount_fileRows]

mutual

theorem specCount_node (cfg : CrawlCfg) (p : String) :
    ∀ (t : FSTree), fileRowCount (triplesRows cfg (triplesOfNode p t))
      = (if isDirNode t then specFileCountT t else 0)
  | .file a b c d => by
    simp [triplesOfNode, triplesRows, fileRowCount, isDirNode]
  | .dir n m ok cs => by
    by_cases hk : keepDirName n = true
    · simp only [triplesOfNode, if_pos hk]
      rw [triplesRows_cons, fileRowCount_append, tripleRows_count]
      have hl := specCount_list cfg (joinPath p n) cs
      simp only [isDirNode, if_pos rfl, specFileCountT, hk, if_true]
      omega
    · simp [triplesOfNode, hk, triplesRows, fileRowCount, isDirNode, specFileCountT]

theorem specCount_list (cfg : CrawlCfg) (p : String) :
    ∀ (cs : FSList), fileRowCount (triplesRows cfg (triplesOfChildren p cs))
      + okFilesOf (fileChildren cs) = specFileCount cs
  | .nil => by
    simp [triplesOfChildren, triplesRows, fileChildren, okFilesOf, specFileCount, fileRowCount]
  | .cons t ts => by
    have heq : triplesOfChildren p (.cons t ts)
        = triplesOfNode p t ++ triplesOfChildren p ts := rfl
    rw [heq, triplesRows_append, fileRowCount_append]
    have hn := specCount_node cfg p t
    have hl := specCount_list cfg p ts
    cases t with
    | file a b c d =>
      simp only [isDirNode, Bool.false_eq_true, if_false] at hn
      simp only [fileChildren, isDirNode, Bool.false_eq_true, if_false, okFilesOf,
        specFileCount, specFileCountT]
      omega
    | dir n m ok cs2 =>
      simp only [isDirNode, if_true, if_pos rfl] at hn
      simp [fileChildren, isDirNode, specFileCount, specFileCountT] at hn ⊢
      omega

end

theorem rootTriples_count (cfg : CrawlCfg) (root : String) (cs : FSList) :
    fileRowCount (triplesRows cfg (rootTriples root cs)) = specFileCount cs := by
  have heq : rootTriples root cs
      = (root, keptDirChildren cs, fileChildren cs) :: triplesOfChildren root cs := rfl
  rw [heq, triplesRows_cons, fileRowCount_append, tripleRows_count]
  have := specCount_list cfg root cs
  simp only [] at this ⊢
  omega

theorem countInv_initSt (files : List Row) : countInv (initSt files) :=
  ⟨rfl, by simp [initSt]⟩

theorem countInv_log_extend {st : CrawlSt} (h : countInv st) (r : Row) (e : Nat × String)
    (he : e ∈ st.events) :
    ∃ l1 l2, st.log ++ [r] = l1 ++ l2 ∧ e.1 = fileRowCount l1 := by
  obtain ⟨l1, l2, hsplit, hcnt⟩ := h.2 e he
  exact ⟨l1, l2 ++ [r], by rw [hsplit, List.append_assoc], hcnt⟩

theorem countInv_pushFileRow {cfg : CrawlCfg} {p n : String} {size : Nat} {mtime : Int}
    {st : CrawlSt} (h : countInv st) :
    countInv (pushFileRow cfg p n size mtime st) := by
  constructor
  · show st.count + 1 = fileRowCount (st.log ++ [_])
    rw [fileRowCount_append, h.1]
    simp [fileRowCount]
  · intro e he
    exact countInv_log_extend h _ e he

theorem countInv_appendDirRow {cfg : CrawlCfg} {p : String} {st : CrawlSt}
    (h : countInv st) (t : FSTree) :
    countInv (appendDirRow cfg p st t) := by
  cases t with
  | file a b c d => exact h
  | dir n mtime ok cs =>
    cases ok with
    | false => exact h
    | true =>
      simp only [appendDirRow, if_pos rfl]
      constructor
      · show st.count = fileRowCount (st.log ++ [_])
        rw [fileRowCount_append, h.1]
        simp [fileRowCount]
      · intro e he
        exact countInv_log_extend h _ e he

theorem countInv_foldDirs {cfg : CrawlCfg} {p : String} :
    ∀ (ds : List FSTree) {st : CrawlSt}, countInv st →
      countInv (ds.foldl (appendDirRow cfg p) st)
  | [], st, h => h
  | d :: ds, st, h => by
    rw [List.foldl_cons]
    exact countInv_foldDirs ds (countInv_appendDirRow h d)

theorem countInv_flagRead {cfg : CrawlCfg} {st : CrawlSt} (h : countInv st) :
    countInv (flagRead cfg st).2 := h

theorem countInv_doCommit {cfg : CrawlCfg} {st : CrawlSt} (h : countInv st) :
    countInv (doCommit cfg st).2 := by
  unfold doCommit
  split <;> exact h

theorem countInv_pushEvent {cfg : CrawlCfg} {p : String} {st : CrawlSt} (h : countInv st) :
    countInv (pushEvent cfg p st) := by
  unfold pushEvent
  split
  · refine ⟨h.1, ?_⟩
    intro e he
    rcases List.mem_append.mp he with he | he
    · exact h.2 e he
    · have : e = (st.count, p) := by simpa using he
      subst this
      exact ⟨st.log, [], by simp, h.1⟩
  · exact h

theorem countInv_processFile {cfg : CrawlCfg} {p : String} (f : FSTree) {st : CrawlSt}
    (h : countInv st) :
    countInv (stateOf (processFile cfg p f st)) := by
  cases f with
  | dir a b c d => exact h
  | file n size mtime ok =>
    simp only [processFile]
    split
    · exact countInv_flagRead h
    · split
      · exact countInv_flagRead h
      · split
        · split
          · exact countInv_doCommit (countInv_pushFileRow (countInv_flagRead h))
          · exact countInv_pushEvent (countInv_doCommit (countInv_pushFileRow (countInv_flagRead h)))
        · exact countInv_pushFileRow (countInv_flagRead h)

theorem countInv_processFiles {cfg : CrawlCfg} {p : String} :
    ∀ (fs : List FSTree) {st : CrawlSt}, countInv st →
      countInv (stateOf (processFiles cfg p fs st))
  | [], st, h => h
  | f :: fs, st, h => by
    unfold processFiles
    rcases hpf : processFile cfg p f st with st1 | st1 | st1
    · have h1 : countInv st1 := by
        have := @countInv_processFile cfg p f _ h
        rw [hpf] at this
        exact this
      exact countInv_processFiles fs h1
    · have := @countInv_processFile cfg p f _ h
      rw [hpf] at this
      exact this
    · have := @countInv_processFile cfg p f _ h
      rw [hpf] at this
      exact this

theorem countInv_runTriples {cfg : CrawlCfg} :
    ∀ (ts : List Triple) {st : CrawlSt}, countInv st →
      countInv (stateOf (runTriples cfg ts st))
  | [], st, h => h
  | (p, ds, fs) :: rest, st, h => by
    unfold runTriples
    split
    · exact countInv_flagRead h
    · have hd : countInv (ds.foldl (appendDirRow cfg p) (flagRead cfg st).2) :=
        countInv_foldDirs ds (countInv_flagRead h)
      rcases hpf : processFiles cfg p fs (ds.foldl (appendDirRow cfg p) (flagRead cfg st).2)
        with st1 | st1 | st1
      · have h1 : countInv st1 := by
          have := @countInv_processFiles cfg p fs _ hd
          rw [hpf] at this
          exact this
        exact countInv_runTriples rest h1
      · have := @countInv_processFiles cfg p fs _ hd
        rw [hpf] at this
        exact this
      · have := @countInv_processFiles cfg p fs _ hd
        rw [hpf] at this
        exact this

theorem finishCrawl_count_log_events (cfg : CrawlCfg) (root : String)
    (mounts : List MountRow) (st : CrawlSt) :
    (finishCrawl cfg root mounts st).count = st.count
      ∧ (finishCrawl cfg root mounts st).log = st.log
      ∧ (finishCrawl cfg root mounts st).events = st.events := by
  have hps := @flushPending_batch_time cfg st
  have hd := doCommit_fields cfg (commitArg cfg st)
  have hcount : (doCommit cfg (commitArg cfg st)).2.count = st.count := by
    rw [hd.2.1]
    exact hps.2.2.2.1
  have hlog : (doCommit cfg (commitArg cfg st)).2.log = st.log := by
    rw [hd.2.2.2.1]
    exact hps.2.2.2.2.2.1
  have hev : (doCommit cfg (commitArg cfg st)).2.events = st.events := by
    rw [hd.2.2.1]
    exact hps.2.2.2.2.1
  unfold finishCrawl
  split
  · exact ⟨hcount, hlog, hev⟩
  · exact ⟨hcount, hlog, hev⟩

theorem tails_any_isEmpty : ∀ t : List Char, t.tails.any (fun s => s.isEmpty) = true
  | [] => rfl
  | c :: ts => by
    rw [show (c :: ts).tails = (c :: ts) :: ts.tails from rfl]
    simp [tails_any_isEmpty ts]

theorem likeChars_wildcardFree :
    ∀ (ps : List Char), ps.all (fun c => !(c == '%') && !(c == '_')) = true →
      ∀ t, likeChars (ps ++ ['%']) t = likePre ps t
  | [], _, t => by
    simp [likeChars, likePre, tails_any_isEmpty t]
  | p :: ps, h, t => by
    simp only [List.all_cons, Bool.and_eq_true, Bool.not_eq_true'] at h
    obtain ⟨⟨hp1, hp2⟩, hps⟩ := h
    cases t with
    | nil => simp [likeChars, likePre, hp1]
    | cons c ts =>
      simp [likeChars, likePre, hp1, hp2, likeChars_wildcardFree ps hps ts]

theorem sqlLike_wildcardFree (root path : String) (h : noWildcards root = true) :
    sqlLike (root ++ "%") path = likePre root.data path.data := by
  unfold sqlLike
  rw [String.data_append]
  exact likeChars_wildcardFree root.data h path.data

theorem purgeUnderRoot_eq (files : List Row) (root : String) (h : noWildcards root = true) :
    purgeUnderRoot files root = files.filter (fun r => !likePre root.data r.path.data) := by
  unfold purgeUnderRoot
  refine List.filter_congr ?_
  intro r _
  rw [sqlLike_wildcardFree root r.path h]

theorem likePre_refl : ∀ l : List Char, likePre l l = true
  | [] => rfl
  | c :: ts => by simp [likePre, likePre_refl ts]

theorem likePre_append : ∀ (p t u : List Char), likePre p t = true → likePre p (t ++ u) = true
  | [], _, _, _ => rfl
  | _ :: _, [], _, h => by cases h
  | p :: ps, c :: ts, u, h => by
    simp only [likePre, Bool.and_eq_true] at h ⊢
    exact ⟨h.1, likePre_append ps ts u h.2⟩

theorem likePre_joinPath (root : String) (p n : String)
    (h : likePre root.data p.data = true) :
    likePre root.data (joinPath p n).data = true := by
  unfold joinPath
  split
  · rw [String.data_append]
    exact likePre_append _ _ _ h
  · rw [String.data_append, String.data_append, List.append_assoc]
    exact likePre_append _ _ _ h

mutual

theorem triplesOfNode_under (root : String) :
    ∀ (t : FSTree) (p : String), likePre root.data p.data = true →
      ∀ tr ∈ triplesOfNode p t, likePre root.data tr.1.data = true
  | .file _ _ _ _, p, _, tr, htr => by rw [triplesOfNode] at htr; cases htr
  | .dir n mtime ok cs, p, hp, tr, htr => by
    rw [triplesOfNode] at htr
    split at htr
    · rcases List.mem_cons.mp htr with h | h
      · subst h
        exact likePre_joinPath root p n hp
      · exact triplesOfChildren_under root cs (joinPath p n) (likePre_joinPath root p n hp) tr h
    · cases htr

theorem triplesOfChildren_under (root : String) :
    ∀ (cs : FSList) (p : String), likePre root.data p.data = true →
      ∀ tr ∈ triplesOfChildren p cs, likePre root.data tr.1.data = true
  | .nil, p, _, tr, htr => by rw [triplesOfChildren] at htr; cases htr
  | .cons t ts, p, hp, tr, htr => by
    rw [triplesOfChildren] at htr
    rcases List.mem_append.mp htr with h | h
    · exact triplesOfNode_under root t p hp tr h
    · exact triplesOfChildren_under root ts p hp tr h

end

theorem dirRowOf_path {cfg : CrawlCfg} {p : String} {a : FSTree} {r : Row}
    (h : dirRowOf cfg p a = some r) : r.path = joinPath p (nodeName a) := by
  cases a with
  | file _ _ _ _ => rw [dirRowOf] at h; cases h
  | dir n mtime ok cs =>
    rw [dirRowOf] at h
    split at h
    · cases h
      rfl
    · cases h

theorem fileRowOf_path {cfg : CrawlCfg} {p : String} {a : FSTree} {r : Row}
    (h : fileRowOf cfg p a = some r) : r.path = joinPath p (nodeName a) := by
  cases a with
  | dir _ _ _ _ => rw [fileRowOf] at h; cases h
  | file n size mtime ok =>
    rw [fileRowOf] at h
    split at h
    · cases h
      rfl
    · cases h

theorem tripleRows_path_pre (cfg : CrawlCfg) (root : String) (tr : Triple)
    (h : likePre root.data tr.1.data = true) :
    ∀ r ∈ tripleRows cfg tr, likePre root.data r.path.data = true := by
  intro r hr
  rw [tripleRows] at hr
  rcases List.mem_append.mp hr with hm | hm
  · rcases List.mem_filterMap.mp hm with ⟨a, _, ha⟩
    rw [dirRowOf_path ha]
    exact likePre_joinPath root tr.1 (nodeName a) h
  · rcases List.mem_filterMap.mp hm with ⟨a, _, ha⟩
    rw [fileRowOf_path ha]
    exact likePre_joinPath root tr.1 (nodeName a) h

theorem triplesRows_path_pre (cfg : CrawlCfg) (root : String) (cs : FSList) :
    ∀ r ∈ triplesRows cfg (rootTriples root cs), likePre root.data r.path.data = true := by
  intro r hr
  rw [triplesRows] at hr
  rcases List.mem_flatten.mp hr with ⟨l, hl, hrl⟩
  rcases List.mem_map.mp hl with ⟨tr, htr, rfl⟩
  have hpre : likePre root.data tr.1.data = true := by
    rw [rootTriples] at htr
    rcases List.mem_cons.mp htr with h | h
    · subst h
      exact likePre_refl root.data
    · exact triplesOfChildren_under root cs root (likePre_refl root.data) tr h
  exact tripleRows_path_pre cfg root tr hpre r hrl

/-- C1 (code bug).  Cancellation never gets the chance to flush
anything: the purge `DELETE` of src/main.py line 203 opens sqlite3's
implicit transaction, so the `BEGIN TRANSACTION` of line 210 always
raises and every `index_path` call — the cancelled one of the
stop-flag scenario included — aborts into the `except` handler before
walking.  No entry is ever batched, flushed or committed, the store
is returned unchanged, and the claimed preservation of the in-flight
batch never happens. -/
theorem C1_crawl_aborts_before_walk :
    beginTransaction inTxnAfterPurge
        = Except.error "cannot start a transaction within a transaction"
      ∧ (∀ (cfg : CrawlCfg) (root : String) (cs : FSList) (db : DB),
          index_path cfg root cs db
            = { files := db.files, mounts := db.mounts, count := 0,
                events := [], outcome := Outcome.failed, log := [] })
      ∧ (index_path crawlCfgStop "/r" fsStopScenario emptyDB).files = []
      ∧ (index_path crawlCfgStop "/r" fsStopScenario emptyDB).log = [] :=
  ⟨rfl, fun _ _ _ _ => rfl, rfl, rfl⟩

/-- C2 (code bug).  `last_indexed` is never updated at all: every
`index_path` call aborts at the line-210 `BEGIN` and its `except`
path leaves the `mount_points` table untouched, so even a crawl of
the registered `/data` mount leaves `last_indexed` at `none` — while
the unreachable walk body would have stamped it; "a crawl that
completes normally sets it to the current time" describes a path the
program cannot take. -/
theorem C2_lastIndexed_never_updated :
    (∀ (cfg : CrawlCfg) (root : String) (cs : FSList) (db : DB),
        (index_path cfg root cs db).mounts = db.mounts)
      ∧ (index_path crawlCfg0 "/data" fsData scenarioDB).mounts = scenarioDB.mounts
      ∧ ((index_path crawlCfg0 "/data" fsData scenarioDB).mounts.all
          (fun m => m.lastIndexed == none)) = true
      ∧ (index_path_walk crawlCfg0 "/data" fsData scenarioDB).mounts
          = updateLastIndexed scenarioDB.mounts "/data" 0 :=
  ⟨fun _ _ _ _ => rfl, rfl, by decide, by decide⟩

/-- C7 (code bug).  The purge never persists: the `DELETE` of line
203 runs inside the implicit transaction whose presence makes the
line-210 `BEGIN` raise, and the `except` handler's `ROLLBACK` undoes
it — so no stored entry is ever deleted and a re-crawl refreshes
nothing.  For contrast, the `DELETE` as issued
(`path LIKE '/data%'`) would even have deleted the sibling
`/database/f`, a path that is not the root and not nested under
it. -/
theorem C7_purge_never_persists :
    (∀ (cfg : CrawlCfg) (root : String) (cs : FSList) (db : DB),
        (index_path cfg root cs db).files = db.files)
      ∧ (index_path crawlCfg0 "/data" FSList.nil
            { files := [sibRow], mounts := [] }).files = [sibRow]
      ∧ purgeUnderRoot [sibRow] "/data" = []
      ∧ sibRow.path ≠ "/data" :=
  ⟨fun _ _ _ _ => rfl, rfl, by decide, by decide⟩

/-- C9 (code bug).  The hidden-directory pruning of src/main.py lines
216-220 is dead code: every crawl aborts at the line-210 `BEGIN`
before `os.walk` starts, so no directory — hidden, allow-listed or
ordinary — is ever visited, stored or counted, and the result of
`index_path` does not depend on the directory tree at all.  The
pruning filter itself would drop `.git` and keep `.local`, and the
unreachable walk body would crawl a tree with a `.git` subtree
exactly as the same tree without it. -/
theorem C9_pruning_is_dead_code :
    (∀ (cfg : CrawlCfg) (root : String) (cs cs' : FSList) (db : DB),
        index_path cfg root cs db = index_path cfg root cs' db)
      ∧ keepDirName ".git" = false
      ∧ keepDirName ".local" = true
      ∧ index_path_walk crawlCfg0 "/r"
            (FSList.cons (FSTree.dir ".git" 0 true
              (FSList.cons (FSTree.file "x" 1 0 true) FSList.nil))
              (FSList.cons (FSTree.file "f" 5 0 true) FSList.nil)) emptyDB
          = index_path_walk crawlCfg0 "/r"
              (FSList.cons (FSTree.file "f" 5 0 true) FSList.nil) emptyDB :=
  ⟨fun _ _ _ _ _ => rfl, by decide, by decide, by decide⟩

/-- C10 (code bug).  The returned count is always 0 and no row is
ever written: every `index_path` call takes the `except` path and
returns `indexed_count` still at its initial 0, having appended
nothing and fired no progress callback — so "directories are written
to the Store as entries but are never included in the returned count"
is false of the program.  The unreachable walk body of the `/data`
scenario would have returned 2 (its two stat-able files) while
storing 3 rows, the directory row uncounted. -/
theorem C10_count_always_zero :
    (∀ (cfg : CrawlCfg) (root : String) (cs : FSList) (db : DB),
        (index_path cfg root cs db).count = 0
          ∧ (index_path cfg root cs db).events = []
          ∧ (index_path cfg root cs db).log = [])
      ∧ (index_path crawlCfg0 "/data" fsData scenarioDB).count = 0
      ∧ (index_path_walk crawlCfg0 "/data" fsData emptyDB).count = 2
      ∧ fileRowCount (index_path_walk crawlCfg0 "/data" fsData emptyDB).log = 2
      ∧ (index_path_walk crawlCfg0 "/data" fsData emptyDB).log.length = 3 :=
  ⟨fun _ _ _ _ => ⟨rfl, rfl, rfl⟩, rfl, by decide, by decide, by decide⟩
